import Mathlib

/-! Verification development for `scrape-tokped-go` (`src/main.go`).

Go strings are byte sequences; they are embedded as lists of byte values
(`Nat`, each below 256 for a well-formed string).  String literals of the
source are UTF-8 encoded, which `goStr` reproduces.

The library functions the program calls (`strings.Index`,
`strings.Contains`, `url.QueryUnescape`, `csv.Writer.Write`,
`chromedp.AttributeValue`) are embedded from the libraries' sources; the
functions of `main.go` are
embedded from `src/main.go`, with the line numbers given in the doc
comments.
-/

namespace ScrapeTokped

/-- A Go `string`: a sequence of bytes. -/
abbrev GoString := List Nat

/-- UTF-8 encoding of one code point, as the Go compiler stores literals. -/
def utf8Bytes (c : Char) : List Nat :=
  let v := c.toNat
  if v < 0x80 then [v]
  else if v < 0x800 then [0xC0 + v / 64, 0x80 + v % 64]
  else if v < 0x10000 then [0xE0 + v / 4096, 0x80 + v / 64 % 64, 0x80 + v % 64]
  else [0xF0 + v / 262144, 0x80 + v / 4096 % 64, 0x80 + v / 64 % 64, 0x80 + v % 64]

/-- The bytes of a source-level string literal. -/
def goStr (s : String) : GoString :=
  s.toList.flatMap utf8Bytes

/-- Go `error` values that occur in the program. -/
inductive GoError where
  /-- `url.EscapeError(s)`: the offending escape sequence. -/
  | escapeError (s : GoString)
  /-- `fmt.Errorf(msg)`. -/
  | errorf (msg : GoString)
  /-- an error reported by the browser driver or the operating system. -/
  | external (msg : GoString)
  deriving DecidableEq, Repr

/-! ## `strings.Index`, `strings.Contains` -/

/-- Search loop of `strings.Index`: the first position, counted from `i`,
at which `substr` starts in the remaining text, or `-1`. -/
def stringsIndexFrom (substr : GoString) : GoString → Nat → Int
  | [], i => if substr = [] then (i : Int) else -1
  | c :: cs, i =>
    if substr.isPrefixOf (c :: cs) then (i : Int)
    else stringsIndexFrom substr cs (i + 1)

/-- Go `strings.Index(s, substr)`: index of the first instance of `substr`
in `s`, or `-1` if `substr` is not present in `s`. -/
def stringsIndex (s substr : GoString) : Int :=
  stringsIndexFrom substr s 0

/-- Go `strings.Contains(s, substr)`, which is `Index(s, substr) >= 0`. -/
def stringsContains (s substr : GoString) : Bool :=
  decide (0 ≤ stringsIndex s substr)

/-! ## `net/url`: `QueryUnescape` -/

/-- Go `url.ishex`. -/
def ishex (c : Nat) : Bool :=
  if 48 ≤ c ∧ c ≤ 57 then true
  else if 97 ≤ c ∧ c ≤ 102 then true
  else if 65 ≤ c ∧ c ≤ 70 then true
  else false

/-- Go `url.unhex` (byte arithmetic). -/
def unhex (c : Nat) : Nat :=
  if 48 ≤ c ∧ c ≤ 57 then c - 48
  else if 97 ≤ c ∧ c ≤ 102 then c - 97 + 10
  else if 65 ≤ c ∧ c ≤ 70 then c - 65 + 10
  else 0

/-- Go slice expression `s[i:j]` clipped as `unescape` does for its error
value: `s = s[i:]; if len(s) > 3 { s = s[:3] }`. -/
def escapeSnippet (s : GoString) (i : Nat) : GoString :=
  let t := s.drop i
  if t.length > 3 then t.take 3 else t

/-- First loop of `url.unescape` in mode `encodeQueryComponent`
(`for i := 0; i < len(s); { switch s[i] ... }`): counts the `%` escapes in
`n`, checks that they are well formed and records whether a `+` occurs.
`fuel` bounds the number of iterations; the loop advances `i` at every
iteration, so `len(s) - i` iterations suffice. -/
def unescapeScan (s : GoString) : Nat → Nat → Nat → Bool → Except GoError (Nat × Bool)
  | 0, _, n, hasPlus => .ok (n, hasPlus)
  | fuel + 1, i, n, hasPlus =>
    if i < s.length then
      if s.getD i 0 = 37 then
        if i + 2 ≥ s.length || !ishex (s.getD (i + 1) 0) || !ishex (s.getD (i + 2) 0) then
          .error (.escapeError (escapeSnippet s i))
        else
          unescapeScan s fuel (i + 3) (n + 1) hasPlus
      else if s.getD i 0 = 43 then
        unescapeScan s fuel (i + 1) n true
      else
        unescapeScan s fuel (i + 1) n hasPlus
    else .ok (n, hasPlus)

/-- Second loop of `url.unescape` in mode `encodeQueryComponent`
(`for i := 0; i < len(s); i++ { switch s[i] ... }`), appending to the
builder `t`. -/
def unescapeBuild (s : GoString) : Nat → Nat → GoString → GoString
  | 0, _, t => t
  | fuel + 1, i, t =>
    if i < s.length then
      if s.getD i 0 = 37 then
        unescapeBuild s fuel (i + 2 + 1)
          (t ++ [((unhex (s.getD (i + 1) 0) <<< 4) % 256) ||| unhex (s.getD (i + 2) 0)])
      else if s.getD i 0 = 43 then
        unescapeBuild s fuel (i + 1) (t ++ [32])
      else
        unescapeBuild s fuel (i + 1) (t ++ [s.getD i 0])
    else t

/-- Go `url.QueryUnescape(s)`, i.e. `unescape(s, encodeQueryComponent)`:
the result string and the error (`none` is Go's `nil`). -/
def queryUnescape (s : GoString) : GoString × Option GoError :=
  match unescapeScan s s.length 0 0 false with
  | .error e => ([], some e)
  | .ok (n, hasPlus) =>
    if n = 0 ∧ hasPlus = false then (s, none)
    else (unescapeBuild s s.length 0 [], none)

/-! ## `main.go` -/

/-- The redirect marker `"r="` of `main.go` (lines 92, 197, 200). -/
def marker : GoString := goStr "r="

/-- `extractAndDecodeURL` (main.go, lines 196-211): the decoded string and
the error (`none` is `nil`). -/
def extractAndDecodeURL (inputURL : GoString) : GoString × Option GoError :=
  let index := stringsIndex inputURL marker
  if index ≠ -1 then
    let trimmedURL := inputURL.drop (index + (marker.length : Int)).toNat
    match queryUnescape trimmedURL with
    | (_, some err) => ([], some err)
    | (decodedURL, none) => (decodedURL, none)
  else
    ([], some (.errorf (goStr "substring not found in the URL")))

/-! ## Specification-side notions for redirect decoding -/

/-- The link `s` splits at the first occurrence of the marker: `pre` is
the text before it, `post` the text after it. -/
def SplitsAtFirstMarker (s pre post : GoString) : Prop :=
  s = pre ++ marker ++ post ∧
    ∀ pre2 post2 : GoString, s = pre2 ++ marker ++ post2 → pre.length ≤ pre2.length

/-- A hexadecimal digit `0-9`, `a-f`, `A-F`. -/
def IsHexDigit (c : Nat) : Prop :=
  c ∈ goStr "0123456789abcdefABCDEF"

instance (c : Nat) : Decidable (IsHexDigit c) := by
  unfold IsHexDigit; infer_instance

/-- The numeric value of a hexadecimal digit. -/
def hexValue (c : Nat) : Nat :=
  match (goStr "0123456789abcdef").indexOf? c with
  | some v => v
  | none =>
    match (goStr "0123456789ABCDEF").indexOf? c with
    | some v => v
    | none => 0

/-- The text is validly percent-encoded: every `%` is followed by two
hexadecimal digits. -/
def ValidPercent (t : GoString) : Prop :=
  ∀ i < t.length, t.getD i 0 = 37 →
    i + 2 < t.length ∧ IsHexDigit (t.getD (i + 1) 0) ∧ IsHexDigit (t.getD (i + 2) 0)

instance (t : GoString) : Decidable (ValidPercent t) := by
  unfold ValidPercent; infer_instance

/-- Percent-decoding in the words of the specification: each `%XX` is
replaced by the byte `XX`, every other character is kept. -/
def percentDecode : GoString → GoString
  | [] => []
  | [c] => [c]
  | [c, d] => [c, d]
  | c :: a :: b :: rest =>
    if c = 37 then (16 * hexValue a + hexValue b) :: percentDecode rest
    else c :: percentDecode (a :: b :: rest)

/-- Query-component decoding: each `%XX` is replaced by the byte `XX`,
each `+` by a space, every other character is kept. -/
def queryDecode : GoString → GoString
  | [] => []
  | [c] => [if c = 43 then 32 else c]
  | [c, d] => [if c = 43 then 32 else c, if d = 43 then 32 else d]
  | c :: a :: b :: rest =>
    if c = 37 then (16 * hexValue a + hexValue b) :: queryDecode rest
    else (if c = 43 then 32 else c) :: queryDecode (a :: b :: rest)

/-! ## `main.go`: records and the two scraping phases -/

/-- `Product` (main.go, lines 17-24). -/
structure Product where
  name : GoString
  price : GoString
  imageURL : GoString
  detailProdukURL : GoString
  merchant : GoString
  rating : GoString
  deriving DecidableEq, Repr

/-- Termination of the process by `log.Fatal(msg, err)`. -/
structure Fatal where
  msg : GoString
  err : GoError
  deriving DecidableEq, Repr

/-- The four texts that `chromedp.Run` stores for one listing card
(main.go, lines 75-81). -/
structure CardFields where
  name : GoString
  price : GoString
  imageURL : GoString
  detailProdukURL : GoString
  deriving DecidableEq, Repr

/-- Outcome of the `chromedp.Run` call for one listing card: its error,
or the extracted texts. -/
abbrev CardOutcome := Except GoError CardFields

/-- Resolution of the detail link inside the loop of `scrapeStep1`
(main.go, lines 92-101). -/
def resolveDetailURL (detailProdukURL : GoString) : Except Fatal GoString :=
  if stringsContains detailProdukURL marker then
    match extractAndDecodeURL detailProdukURL with
    | (_, some err) => .error ⟨goStr "Error decoding URL:", err⟩
    | (decodedDetailURL, none) => .ok decodedDetailURL
  else
    .ok detailProdukURL

/-- One iteration of the loop of `scrapeStep1` (main.go, lines 75-104):
`products` is the slice built so far, `node` the outcome of the
`chromedp.Run` call for the card. -/
def scrapeCard (products : List Product) (node : CardOutcome) : Except Fatal (List Product) :=
  match node with
  | .error err => .error ⟨goStr "Error:", err⟩
  | .ok f =>
    let product : Product := ⟨[], [], [], [], [], []⟩
    let product := { product with imageURL := f.imageURL }
    let product := { product with name := f.name }
    let product := { product with price := f.price }
    match resolveDetailURL f.detailProdukURL with
    | .error fatal => .error fatal
    | .ok url => .ok (products ++ [{ product with detailProdukURL := url }])

/-- Outcome of a `chromedp.Text` action on a listing card: its error, or
the text of the element. -/
abbrev TextLookup := Except GoError GoString

/-- What a `chromedp.AttributeValue` action finds on a listing card. -/
inductive AttributeLookup where
  /-- the selector returns no node: the action returns this error. -/
  | noNode (err : GoError)
  /-- an element matches and has no attribute of that name. -/
  | missing
  /-- an element matches and the attribute has this value. -/
  | found (value : GoString)
  deriving DecidableEq, Repr

/-- `chromedp.AttributeValue(sel, name, &value, nil, ...)` as called at
main.go, lines 79-80, with `ok == nil`: an error when no node matches;
otherwise `nil`, and `*value` is assigned only when the attribute is
present.  `value` is the content of the variable before the call. -/
def attributeValue (lookup : AttributeLookup) (value : GoString) : Except GoError GoString :=
  match lookup with
  | .noNode err => .error err
  | .missing => .ok value
  | .found v => .ok v

/-- A matched listing card (an element of `productNodes`), given by what
the four actions of main.go, lines 77-80, find in it. -/
structure CardNode where
  name : TextLookup
  price : TextLookup
  image : AttributeLookup
  link : AttributeLookup

/-- The `chromedp.Run` of main.go, lines 75-81: the variables
`name, price, imageURL, detailProdukURL` start empty, the four actions run
in order and the first error ends the run. -/
def runCard (node : CardNode) : CardOutcome :=
  match node.name with
  | .error err => .error err
  | .ok name =>
    match node.price with
    | .error err => .error err
    | .ok price =>
      match attributeValue node.image [] with
      | .error err => .error err
      | .ok imageURL =>
        match attributeValue node.link [] with
        | .error err => .error err
        | .ok detailProdukURL => .ok ⟨name, price, imageURL, detailProdukURL⟩

/-- The loop `for _, node := range productNodes` of `scrapeStep1`
(main.go, lines 74-105). -/
def scrapeCards : List CardNode → List Product → Except Fatal (List Product)
  | [], products => .ok products
  | node :: rest, products =>
    match scrapeCard products (runCard node) with
    | .error fatal => .error fatal
    | .ok products2 => scrapeCards rest products2

/-- `scrapeStep1` (main.go, lines 45-109).  `navigation` is the outcome of
the first `chromedp.Run` (lines 63-67): its error, or the matched listing
cards in DOM order. -/
def scrapeStep1 (navigation : Except GoError (List CardNode)) : Except Fatal (List Product) :=
  match navigation with
  | .error err => .error ⟨goStr "Error during navigation:", err⟩
  | .ok productNodes => scrapeCards productNodes []

/-- Outcome of a `chromedp.Run` call that reads one text from the detail
page: its error, or the text. -/
abbrev Lookup := Except GoError GoString

/-- `scrapeStep2` (main.go, lines 159-194): the record after the call and
the returned error.  `merchantRun` is the outcome of the `chromedp.Run` of
lines 166-171, `ratingRun` of the one of lines 181-183. -/
def scrapeStep2 (product : Product) (merchantRun ratingRun : Lookup) :
    Product × Option GoError :=
  let product :=
    match merchantRun with
    | .error _ => product
    | .ok merchant => { product with merchant := merchant }
  let product :=
    match ratingRun with
    | .error _ => product
    | .ok rating => { product with rating := rating }
  (product, none)

/-! ## `concurrentScrapeStep2` as a transition system -/

/-- Program points of the calling goroutine in `concurrentScrapeStep2`. -/
inductive MainPc where
  /-- line 129-130: loop head for index `i`, next is `semaphore <- struct{}{}`. -/
  | acquire (i : Nat)
  /-- lines 133-141: slot acquired, next is the `go` statement for `products[i]`. -/
  | launch (i : Nat)
  /-- lines 145-147: next is the `k`-th send of the final loop. -/
  | drain (k : Nat)
  /-- lines 149-157: `errCh` closed and drained, the function has returned. -/
  | returned
  deriving DecidableEq, Repr

/-- Program points of a goroutine started at lines 135-141. -/
inductive TaskPc where
  /-- line 137: executing `scrapeStep2`. -/
  | running
  /-- line 139: blocked in `errCh <- err`. -/
  | sendErr (err : GoError)
  /-- line 136: next is the deferred `<-semaphore`. -/
  | release
  deriving DecidableEq, Repr

/-- A live goroutine: the index of its record and its program point. -/
structure Task where
  idx : Nat
  pc : TaskPc
  deriving DecidableEq, Repr

/-- State of `concurrentScrapeStep2`: the shared slice, the number of
elements buffered in the channel `semaphore`, the program point of the
caller and the live goroutines. -/
structure LimiterState where
  products : List Product
  semaphore : Nat
  mainPc : MainPc
  tasks : List Task
  deriving DecidableEq, Repr

/-- A scheduling decision together with what the browser returns. -/
inductive Event where
  /-- the calling goroutine executes its next statement. -/
  | main
  /-- the goroutine of `products[i]` executes `scrapeStep2` with these
  lookup outcomes. -/
  | scrape (i : Nat) (merchantRun ratingRun : Lookup)
  /-- the goroutine of `products[i]` executes its deferred `<-semaphore`. -/
  | release (i : Nat)

/-- `concurrentLimit := 10` (main.go, line 123). -/
def concurrentLimit : Nat := 10

/-- One step of `concurrentScrapeStep2` with a channel of capacity `limit`;
`none` when the chosen goroutine cannot move (it is blocked or absent).
A send on the buffered channel proceeds when fewer than `limit` elements
are buffered, a receive when at least one is. -/
def step (limit : Nat) (s : LimiterState) : Event → Option LimiterState
  | .main =>
    match s.mainPc with
    | .acquire i =>
      if i < s.products.length then
        if s.semaphore < limit then
          some { s with semaphore := s.semaphore + 1, mainPc := .launch i }
        else none
      else some { s with mainPc := .drain 0 }
    | .launch i =>
      some { s with tasks := ⟨i, .running⟩ :: s.tasks, mainPc := .acquire (i + 1) }
    | .drain k =>
      if k < limit then
        if s.semaphore < limit then
          some { s with semaphore := s.semaphore + 1, mainPc := .drain (k + 1) }
        else none
      else some { s with mainPc := .returned }
    | .returned => none
  | .scrape i merchantRun ratingRun =>
    if (⟨i, .running⟩ : Task) ∈ s.tasks then
      match s.products[i]? with
      | none => none
      | some product =>
        match scrapeStep2 product merchantRun ratingRun with
        | (product2, some err) =>
          some { s with products := s.products.set i product2,
                        tasks := s.tasks.replace ⟨i, .running⟩ ⟨i, .sendErr err⟩ }
        | (product2, none) =>
          some { s with products := s.products.set i product2,
                        tasks := s.tasks.replace ⟨i, .running⟩ ⟨i, .release⟩ }
    else none
  | .release i =>
    if (⟨i, .release⟩ : Task) ∈ s.tasks ∧ 0 < s.semaphore then
      some { s with semaphore := s.semaphore - 1, tasks := s.tasks.erase ⟨i, .release⟩ }
    else none

/-- Execution of a schedule, one step per event. -/
def exec (limit : Nat) : LimiterState → List Event → Option LimiterState
  | s, [] => some s
  | s, e :: es =>
    match step limit s e with
    | none => none
    | some s2 => exec limit s2 es

/-- State on entry to `concurrentScrapeStep2(products)`: empty channel, no
goroutine started. -/
def initState (products : List Product) : LimiterState :=
  ⟨products, 0, .acquire 0, []⟩

/-- Number of goroutines that are executing `scrapeStep2`. -/
def executing (s : LimiterState) : Nat :=
  s.tasks.countP (fun t => decide (t.pc = .running))

/-- `concurrentScrapeStep2` (main.go, lines 111-157) under a schedule: the
slice as the caller sees it when the function has returned, `none` when the
schedule does not run the function to its return. -/
def concurrentScrapeStep2 (products : List Product) (schedule : List Event) :
    Option (List Product) :=
  match exec concurrentLimit (initState products) schedule with
  | none => none
  | some s => if s.mainPc = .returned then some s.products else none

/-! ## `encoding/csv` and `writeToCSV` -/

/-- Go `csv.Writer.fieldNeedsQuotes` for the default delimiter `,`.  For a
field whose first byte is not ASCII the answer is that of the Unicode
white-space test `unicode.IsSpace` on the first rune, given by
`uniSpace`. -/
def fieldNeedsQuotes (uniSpace : GoString → Bool) (field : GoString) : Bool :=
  if field = [] then false
  else if field = [92, 46] then true
  else if field.any (fun c => c = 10 || c = 13 || c = 34 || c = 44) then true
  else
    match field with
    | [] => false
    | c :: _ =>
      if c < 128 then (c = 9 || c = 10 || c = 11 || c = 12 || c = 13 || c = 32)
      else uniSpace field

/-- The body of a quoted field in `csv.Writer.Write` (`UseCRLF` is false):
every `"` is doubled, every other byte is copied. -/
def quoteField : GoString → GoString
  | [] => []
  | c :: rest => if c = 34 then 34 :: 34 :: quoteField rest else c :: quoteField rest

/-- The fields of a record as `csv.Writer.Write` writes them: a comma
before every field but the first (`n > 0`), quotes where needed. -/
def csvFields (uniSpace : GoString → Bool) : List GoString → Nat → GoString
  | [], _ => []
  | field :: rest, n =>
    (if n > 0 then [44] else []) ++
    (if fieldNeedsQuotes uniSpace field then [34] ++ quoteField field ++ [34] else field) ++
    csvFields uniSpace rest (n + 1)

/-- Go `csv.Writer.Write(record)` with the default settings: the bytes
appended to the output, ending with a line feed. -/
def csvWrite (uniSpace : GoString → Bool) (record : List GoString) : GoString :=
  csvFields uniSpace record 0 ++ [10]

/-- The header of `writeToCSV` (main.go, line 224). -/
def header : List GoString :=
  [goStr "Name", goStr "Price", goStr "ImageURL", goStr "DetailProdukURL",
   goStr "Merchant", goStr "Rating"]

/-- The row of a record (main.go, line 231). -/
def productRow (product : Product) : List GoString :=
  [product.name, product.price, product.imageURL, product.detailProdukURL,
   product.merchant, product.rating]

/-- The loop of `writeToCSV` (main.go, lines 230-235), `out` being the
bytes written so far. -/
def writeRows (uniSpace : GoString → Bool) : List Product → GoString → GoString
  | [], out => out
  | product :: rest, out =>
    writeRows uniSpace rest (out ++ csvWrite uniSpace (productRow product))

/-- `writeToCSV` (main.go, lines 213-236): the content of the created file
after the deferred `Flush`, on the path where `os.Create` and the writes
report no error (otherwise the function ends the process with
`log.Fatal`). -/
def writeToCSV (uniSpace : GoString → Bool) (products : List Product) : GoString :=
  writeRows uniSpace products (csvWrite uniSpace header)

/-- Number of lines of a text in which every line ends with a line feed. -/
def lineCount (out : GoString) : Nat :=
  out.count 10

/-! ## Specification-side notions for the two phases -/

/-- The text contains a `%` that is not followed by two hexadecimal
digits. -/
def HasBadPercent (t : GoString) : Prop :=
  ∃ i, i < t.length ∧ t.getD i 0 = 37 ∧
    ¬ (i + 2 < t.length ∧ IsHexDigit (t.getD (i + 1) 0) ∧ IsHexDigit (t.getD (i + 2) 0))

/-- The record that the outcome of a card's `chromedp.Run` yields. -/
def OutcomeRecord (card : CardOutcome) (p : Product) : Prop :=
  ∃ f url, card = .ok f ∧ resolveDetailURL f.detailProdukURL = .ok url ∧
    p = ⟨f.name, f.price, f.imageURL, url, [], []⟩

/-- The fatal error to which the outcome of a card's `chromedp.Run`
leads. -/
def OutcomeFails (card : CardOutcome) (fatal : Fatal) : Prop :=
  (∃ err, card = .error err ∧ fatal = ⟨goStr "Error:", err⟩) ∨
  (∃ f, card = .ok f ∧ resolveDetailURL f.detailProdukURL = .error fatal)

/-- Extraction in the sense of the specification, for which a selector
that is not found and an attribute that is missing are both failures: the
name and price texts are found and the image and link attributes are
present. -/
def ExtractionSucceeds (node : CardNode) : Prop :=
  (∃ name, node.name = .ok name) ∧ (∃ price, node.price = .ok price) ∧
    (∃ src, node.image = .found src) ∧ (∃ href, node.link = .found href)

/-- The text taken for an attribute: its value, the empty string when the
element has no such attribute, nothing when no element matches. -/
def attributeText : AttributeLookup → Option GoString
  | .noNode _ => none
  | .missing => some []
  | .found value => some value

/-- The record a listing card yields: the card's name, price and image
with the resolved detail link, merchant and rating still empty. -/
def IsRecordOf (node : CardNode) (p : Product) : Prop :=
  ∃ name price imageURL link url,
    node.name = .ok name ∧ node.price = .ok price ∧
    attributeText node.image = some imageURL ∧ attributeText node.link = some link ∧
    resolveDetailURL link = .ok url ∧ p = ⟨name, price, imageURL, url, [], []⟩

/-- The error of the first of the four extractions of a card that returns
one. -/
def FirstError (node : CardNode) (err : GoError) : Prop :=
  node.name = .error err ∨
  (∃ name, node.name = .ok name ∧ node.price = .error err) ∨
  (∃ name price, node.name = .ok name ∧ node.price = .ok price ∧ node.image = .noNode err) ∨
  (∃ name price imageURL, node.name = .ok name ∧ node.price = .ok price ∧
    attributeText node.image = some imageURL ∧ node.link = .noNode err)

/-- The fatal error with which a listing card fails: its first extraction
error, or the decode error of its detail link. -/
def FailsWith (node : CardNode) (fatal : Fatal) : Prop :=
  (∃ err, FirstError node err ∧ fatal = ⟨goStr "Error:", err⟩) ∨
  (∃ name price imageURL link,
    node.name = .ok name ∧ node.price = .ok price ∧
    attributeText node.image = some imageURL ∧ attributeText node.link = some link ∧
    resolveDetailURL link = .error fatal)

/-- The text a lookup fetched, empty when the lookup failed. -/
def fetchedOrEmpty (run : Lookup) : GoString :=
  match run with
  | .ok text => text
  | .error _ => []

/-! ## Auxiliary notions for the transition system -/

/-- Slots the calling goroutine has put into the channel on its own
account: the one of the goroutine it is about to start, or the sends of the
final loop. -/
def slotsHeld (limit : Nat) : MainPc → Nat
  | .acquire _ => 0
  | .launch _ => 1
  | .drain k => k
  | .returned => limit

/-- Invariant of `concurrentScrapeStep2`: every live goroutine and every
send of the caller on its own account occupies one place of the channel,
which never holds more than `limit` elements. -/
def SlotInvariant (limit : Nat) (s : LimiterState) : Prop :=
  s.tasks.length + slotsHeld limit s.mainPc ≤ s.semaphore ∧ s.semaphore ≤ limit

/-- The schedule that handles the records `i, i+1, ..., i+n-1` one after
the other: acquire, start the goroutine, let it scrape, let it release. -/
def sequentialSchedule (outcomes : Nat → Lookup × Lookup) : Nat → Nat → List Event
  | _, 0 => []
  | i, n + 1 =>
    .main :: .main :: .scrape i (outcomes i).1 (outcomes i).2 :: .release i ::
      sequentialSchedule outcomes (i + 1) n

/-- A complete schedule for `n` records: the records one after the other,
then the exit of the first loop, the `concurrentLimit` sends of the final
loop and the return. -/
def completeSchedule (outcomes : Nat → Lookup × Lookup) (n : Nat) : List Event :=
  sequentialSchedule outcomes 0 n ++ List.replicate (concurrentLimit + 2) .main

/-! ## Sample inputs -/

/-- Five records as phase 1 leaves them. -/
def fiveRecords : List Product :=
  [⟨goStr "A", goStr "Rp1", goStr "a.png", goStr "https://x/a", [], []⟩,
   ⟨goStr "B", goStr "Rp2", goStr "b.png", goStr "https://x/b", [], []⟩,
   ⟨goStr "C", goStr "Rp3", goStr "c.png", goStr "https://x/c", [], []⟩,
   ⟨goStr "D", goStr "Rp4", goStr "d.png", goStr "https://x/d", [], []⟩,
   ⟨goStr "E", goStr "Rp5", goStr "e.png", goStr "https://x/e", [], []⟩]

/-- With two slots: two goroutines started, both executing `scrapeStep2`. -/
def twoRunning : LimiterState :=
  ⟨fiveRecords, 2, .acquire 2, [⟨1, .running⟩, ⟨0, .running⟩]⟩

/-- One record as phase 1 leaves it. -/
def oneRecord : List Product :=
  [⟨goStr "A", goStr "Rp1", goStr "a.png", goStr "https://x/a", [], []⟩]

/-- A run of `concurrentScrapeStep2` on one record: the merchant lookup
succeeds, the rating lookup fails. -/
def oneRecordSchedule : List Event :=
  [.main, .main, .scrape 0 (.ok (goStr "Shop")) (.error (.external (goStr "timeout"))),
   .release 0] ++ List.replicate 12 .main

/-- Three records: one full, one without merchant, one without merchant
and rating. -/
def threeRecords : List Product :=
  [⟨goStr "Phone A", goStr "Rp1.000", goStr "a.png", goStr "https://x/a", goStr "Shop", goStr "4.9"⟩,
   ⟨goStr "Phone B", goStr "Rp2.000", goStr "b.png", goStr "https://x/b", [], goStr "4.8"⟩,
   ⟨goStr "Phone C", goStr "Rp3.000", goStr "c.png", goStr "https://x/c", [], []⟩]

/-- Three records of the same shapes, the name of the first holding a line
feed. -/
def threeRecordsLineFeed : List Product :=
  [⟨goStr "Phone\nA", goStr "Rp1.000", goStr "a.png", goStr "https://x/a", goStr "Shop", goStr "4.9"⟩,
   ⟨goStr "Phone B", goStr "Rp2.000", goStr "b.png", goStr "https://x/b", [], goStr "4.8"⟩,
   ⟨goStr "Phone C", goStr "Rp3.000", goStr "c.png", goStr "https://x/c", [], []⟩]

/-- Two listing cards in which everything is found, the second with a
redirect link. -/
def twoCards : List CardNode :=
  [⟨.ok (goStr "A"), .ok (goStr "Rp1"), .found (goStr "a.png"), .found (goStr "https://x/a")⟩,
   ⟨.ok (goStr "B"), .ok (goStr "Rp2"), .found (goStr "b.png"),
    .found (goStr "/p?r=https%3A%2F%2Fx%2Fb")⟩]

/-- A listing card whose price element is not found. -/
def cardWithoutPrice : CardNode :=
  ⟨.ok (goStr "A"), .error (.external (goStr "not found")), .found (goStr "a.png"),
   .found (goStr "https://x/a")⟩

/-- A listing card whose link element has no `href` attribute. -/
def cardWithoutHref : CardNode :=
  ⟨.ok (goStr "A"), .ok (goStr "Rp1"), .found (goStr "a.png"), .missing⟩
/-! ## Lemmas on hexadecimal digits -/

theorem hexDigits_eq : goStr "0123456789abcdefABCDEF" =
    [48, 49, 50, 51, 52, 53, 54, 55, 56, 57, 97, 98, 99, 100, 101, 102,
     65, 66, 67, 68, 69, 70] := by decide

theorem ishex_iff (c : Nat) : ishex c = true ↔ IsHexDigit c := by
  unfold ishex IsHexDigit
  rw [hexDigits_eq]
  simp only [List.mem_cons, List.mem_singleton, List.not_mem_nil, or_false]
  constructor
  · intro h
    split at h
    · omega
    · split at h
      · omega
      · split at h
        · omega
        · simp at h
  · intro h
    split
    · rfl
    · split
      · rfl
      · split
        · rfl
        · omega

theorem IsHexDigit.ne_percent {c : Nat} (h : IsHexDigit c) : c ≠ 37 := by
  unfold IsHexDigit at h
  rw [hexDigits_eq] at h
  simp only [List.mem_cons, List.mem_singleton, List.not_mem_nil, or_false] at h
  omega

theorem IsHexDigit.ne_plus {c : Nat} (h : IsHexDigit c) : c ≠ 43 := by
  unfold IsHexDigit at h
  rw [hexDigits_eq] at h
  simp only [List.mem_cons, List.mem_singleton, List.not_mem_nil, or_false] at h
  omega

theorem unhex_eq_hexValue {c : Nat} (h : IsHexDigit c) :
    unhex c = hexValue c ∧ hexValue c < 16 := by
  unfold IsHexDigit at h
  rw [hexDigits_eq] at h
  simp only [List.mem_cons, List.mem_singleton, List.not_mem_nil, or_false] at h
  rcases h with h | h | h | h | h | h | h | h | h | h | h | h | h | h | h | h | h | h | h | h | h | h <;>
    subst h <;> decide

theorem shift_or_eq : ∀ x < 16, ∀ y < 16, ((x <<< 4) % 256) ||| y = 16 * x + y := by
  decide

theorem unescape_byte {a b : Nat} (ha : IsHexDigit a) (hb : IsHexDigit b) :
    ((unhex a <<< 4) % 256) ||| unhex b = 16 * hexValue a + hexValue b := by
  obtain ⟨ha1, ha2⟩ := unhex_eq_hexValue ha
  obtain ⟨hb1, hb2⟩ := unhex_eq_hexValue hb
  rw [ha1, hb1]
  exact shift_or_eq _ ha2 _ hb2

/-! ## Lemmas on `ValidPercent` -/

theorem validPercent_nil : ValidPercent [] := by
  intro i hi; simp at hi

theorem validPercent_cons (c : Nat) (t : GoString) :
    ValidPercent (c :: t) ↔
      (c = 37 → 2 < (c :: t).length ∧ IsHexDigit (t.getD 0 0) ∧ IsHexDigit (t.getD 1 0)) ∧
        ValidPercent t := by
  constructor
  · intro h
    refine ⟨fun hc => ?_, ?_⟩
    · have := h 0 (by simp) (by simpa using hc)
      simpa using this
    · intro i hi hi37
      have := h (i + 1) (by simpa using hi) (by simpa using hi37)
      simp [Nat.add_right_comm] at this
      simp only [List.getD_eq_getElem?_getD]
      exact ⟨by omega, this.2.1, this.2.2⟩
  · rintro ⟨h0, ht⟩ i hi hi37
    cases i with
    | zero => simpa using h0 (by simpa using hi37)
    | succ j =>
      have := ht j (by simpa using hi) (by simpa using hi37)
      simp only [List.getD_eq_getElem?_getD] at this
      simp [Nat.add_right_comm]
      exact ⟨by omega, this.2.1, this.2.2⟩

theorem validPercent_escape (a b : Nat) (rest : GoString) :
    ValidPercent (37 :: a :: b :: rest) ↔ IsHexDigit a ∧ IsHexDigit b ∧ ValidPercent rest := by
  rw [validPercent_cons, validPercent_cons, validPercent_cons]
  constructor
  · rintro ⟨h, -, -, hr⟩
    have := h rfl
    simp at this
    exact ⟨this.1, this.2, hr⟩
  · rintro ⟨ha, hb, hr⟩
    refine ⟨fun _ => ⟨by simp, by simpa using ha, by simpa using hb⟩,
      fun h => absurd h ha.ne_percent, fun h => absurd h hb.ne_percent, hr⟩

theorem validPercent_other {c : Nat} (hc : c ≠ 37) (t : GoString) :
    ValidPercent (c :: t) ↔ ValidPercent t := by
  rw [validPercent_cons]
  exact ⟨fun h => h.2, fun h => ⟨fun h37 => absurd h37 hc, h⟩⟩

theorem not_validPercent_short1 : ¬ ValidPercent [37] := by decide

theorem not_validPercent_short2 (a : Nat) : ¬ ValidPercent [37, a] := by
  intro h
  have := h 0 (by simp) (by simp)
  simp at this

/-! ## The two loops of `unescape` -/

theorem getD_append_offset (pre t : GoString) (k : Nat) :
    (pre ++ t).getD (pre.length + k) 0 = t.getD k 0 := by
  rw [List.getD_append_right _ _ _ _ (Nat.le_add_right _ _)]
  simp

theorem getD_append_zero (pre t : GoString) :
    (pre ++ t).getD pre.length 0 = t.getD 0 0 := by
  simpa using getD_append_offset pre t 0

theorem unescapeScan_valid : ∀ (fuel : Nat) (s pre t : GoString) (i n : Nat) (hasPlus : Bool),
    s = pre ++ t → i = pre.length → t.length ≤ fuel → ValidPercent t →
    unescapeScan s fuel i n hasPlus =
      .ok (n + t.count 37, hasPlus || decide (43 ∈ t)) := by
  intro fuel
  induction fuel with
  | zero =>
    intro s pre t i n hasPlus _ _ hlen _
    have : t = [] := List.eq_nil_of_length_eq_zero (by omega)
    subst this
    simp [unescapeScan]
  | succ fuel ih =>
    intro s pre t i n hasPlus hs hi hlen hv
    subst hs hi
    cases t with
    | nil => simp [unescapeScan]
    | cons c rest =>
      have h0 : (pre ++ c :: rest).getD pre.length 0 = c := by
        rw [getD_append_zero]; simp
      have hlt : pre.length < (pre ++ c :: rest).length := by simp
      unfold unescapeScan
      simp only [h0, hlt, if_true]
      by_cases hc : c = 37
      · subst hc
        match rest, hlen, hv with
        | [], _, hv => exact absurd hv not_validPercent_short1
        | [a], _, hv => exact absurd hv (not_validPercent_short2 a)
        | a :: b :: rest, hlen, hv =>
          have h1 : (pre ++ 37 :: a :: b :: rest).getD (pre.length + 1) 0 = a := by
            rw [getD_append_offset]; simp
          have h2 : (pre ++ 37 :: a :: b :: rest).getD (pre.length + 2) 0 = b := by
            rw [getD_append_offset]; simp
          obtain ⟨ha, hb, hr⟩ := (validPercent_escape a b rest).1 hv
          have ha2 := (ishex_iff a).2 ha
          have hb2 := (ishex_iff b).2 hb
          have hrec := ih (pre ++ 37 :: a :: b :: rest) (pre ++ [37, a, b]) rest
            (pre.length + 3) (n + 1) hasPlus (by simp) (by simp)
            (by simp at hlen; omega) hr
          have hge : ¬ (pre.length + 2 ≥ (pre ++ 37 :: a :: b :: rest).length) := by
            simp
          simp only [h1, h2, ha2, hb2, hge, decide_False, Bool.not_true, Bool.or_self,
            Bool.false_eq_true, if_false, if_true]
          rw [hrec]
          have hane := ha.ne_percent
          have hbne := hb.ne_percent
          have hapl := ha.ne_plus
          have hbpl := hb.ne_plus
          have e1 : List.count 37 (37 :: a :: b :: rest) = List.count 37 rest + 1 := by
            simp [List.count_cons, hane, hbne]
          have e2 : decide (43 ∈ 37 :: a :: b :: rest) = decide (43 ∈ rest) := by
            simp [hapl.symm, hbpl.symm]
          rw [e1, e2, Nat.add_assoc, Nat.add_comm 1]
      · have hv2 := (validPercent_other hc _).1 hv
        simp only [hc, if_false]
        by_cases hp : c = 43
        · subst hp
          have hrec := ih (pre ++ 43 :: rest) (pre ++ [43]) rest (pre.length + 1) n true
            (by simp) (by simp) (by simp at hlen; omega) hv2
          simp only [if_true]
          rw [hrec]
          simp [List.count_cons]
        · have hrec := ih (pre ++ c :: rest) (pre ++ [c]) rest (pre.length + 1) n hasPlus
            (by simp) (by simp) (by simp at hlen; omega) hv2
          simp only [hp, if_false]
          rw [hrec]
          have hp2 : ¬ (43 = c) := fun h => hp h.symm
          have hc2 : ¬ (37 = c) := fun h => hc h.symm
          have e1 : List.count 37 (c :: rest) = List.count 37 rest := by
            simp [List.count_cons, hc]
          have e2 : decide (43 ∈ c :: rest) = decide (43 ∈ rest) := by
            simp [hp2]
          rw [e1, e2]

theorem unescapeScan_invalid : ∀ (fuel : Nat) (s pre t : GoString) (i n : Nat) (hasPlus : Bool),
    s = pre ++ t → i = pre.length → t.length ≤ fuel → ¬ ValidPercent t →
    ∃ e, unescapeScan s fuel i n hasPlus = .error e := by
  intro fuel
  induction fuel with
  | zero =>
    intro s pre t i n hasPlus _ _ hlen hv
    have : t = [] := List.eq_nil_of_length_eq_zero (by omega)
    subst this
    exact absurd validPercent_nil hv
  | succ fuel ih =>
    intro s pre t i n hasPlus hs hi hlen hv
    subst hs hi
    cases t with
    | nil => exact absurd validPercent_nil hv
    | cons c rest =>
      have h0 : (pre ++ c :: rest).getD pre.length 0 = c := by
        rw [getD_append_zero]; simp
      have hlt : pre.length < (pre ++ c :: rest).length := by simp
      unfold unescapeScan
      simp only [h0, hlt, if_true]
      by_cases hc : c = 37
      · subst hc
        simp only [if_true]
        match rest, hlen, hv with
        | [], _, _ => simp
        | [a], _, _ => simp
        | a :: b :: rest, hlen, hv =>
          have h1 : (pre ++ 37 :: a :: b :: rest).getD (pre.length + 1) 0 = a := by
            rw [getD_append_offset]; simp
          have h2 : (pre ++ 37 :: a :: b :: rest).getD (pre.length + 2) 0 = b := by
            rw [getD_append_offset]; simp
          have hge : ¬ (pre.length + 2 ≥ (pre ++ 37 :: a :: b :: rest).length) := by
            simp
          simp only [h1, h2, hge, decide_False, Bool.false_or]
          by_cases hab : ishex a = true ∧ ishex b = true
          · have hr : ¬ ValidPercent rest := fun hr =>
              hv ((validPercent_escape a b rest).2
                ⟨(ishex_iff a).1 hab.1, (ishex_iff b).1 hab.2, hr⟩)
            have hrec := ih (pre ++ 37 :: a :: b :: rest) (pre ++ [37, a, b]) rest
              (pre.length + 3) (n + 1) hasPlus (by simp) (by simp)
              (by simp at hlen; omega) hr
            simpa [hab.1, hab.2] using hrec
          · have : (!ishex a || !ishex b) = true := by
              cases h1 : ishex a <;> cases h2 : ishex b <;> simp_all
            simp [this]
      · have hv2 : ¬ ValidPercent rest := fun h => hv ((validPercent_other hc _).2 h)
        simp only [hc, if_false]
        by_cases hp : c = 43
        · have hrec := ih (pre ++ c :: rest) (pre ++ [c]) rest (pre.length + 1) n true
            (by simp) (by simp) (by simp at hlen; omega) hv2
          simpa [hp] using hrec
        · have hrec := ih (pre ++ c :: rest) (pre ++ [c]) rest (pre.length + 1) n hasPlus
            (by simp) (by simp) (by simp at hlen; omega) hv2
          simpa [hp] using hrec

theorem queryDecode_escape (a b : Nat) (rest : GoString) :
    queryDecode (37 :: a :: b :: rest) = (16 * hexValue a + hexValue b) :: queryDecode rest := by
  simp [queryDecode]

theorem queryDecode_other {c : Nat} (hc : c ≠ 37) (rest : GoString) :
    queryDecode (c :: rest) = (if c = 43 then 32 else c) :: queryDecode rest := by
  match rest with
  | [] => simp [queryDecode]
  | [d] => simp [queryDecode]
  | d :: e :: rest => simp [queryDecode, hc]

theorem percentDecode_other {c : Nat} (hc : c ≠ 37) (rest : GoString) :
    percentDecode (c :: rest) = c :: percentDecode rest := by
  match rest with
  | [] => simp [percentDecode]
  | [d] => simp [percentDecode]
  | d :: e :: rest => simp [percentDecode, hc]

theorem unescapeBuild_valid : ∀ (fuel : Nat) (s pre t : GoString) (i : Nat) (acc : GoString),
    s = pre ++ t → i = pre.length → t.length ≤ fuel → ValidPercent t →
    unescapeBuild s fuel i acc = acc ++ queryDecode t := by
  intro fuel
  induction fuel with
  | zero =>
    intro s pre t i acc _ _ hlen _
    have : t = [] := List.eq_nil_of_length_eq_zero (by omega)
    subst this
    simp [unescapeBuild, queryDecode]
  | succ fuel ih =>
    intro s pre t i acc hs hi hlen hv
    subst hs hi
    cases t with
    | nil => simp [unescapeBuild, queryDecode]
    | cons c rest =>
      have h0 : (pre ++ c :: rest).getD pre.length 0 = c := by
        rw [getD_append_zero]; simp
      have hlt : pre.length < (pre ++ c :: rest).length := by simp
      unfold unescapeBuild
      simp only [h0, hlt, if_true]
      by_cases hc : c = 37
      · subst hc
        match rest, hlen, hv with
        | [], _, hv => exact absurd hv not_validPercent_short1
        | [a], _, hv => exact absurd hv (not_validPercent_short2 a)
        | a :: b :: rest, hlen, hv =>
          have h1 : (pre ++ 37 :: a :: b :: rest).getD (pre.length + 1) 0 = a := by
            rw [getD_append_offset]; simp
          have h2 : (pre ++ 37 :: a :: b :: rest).getD (pre.length + 2) 0 = b := by
            rw [getD_append_offset]; simp
          obtain ⟨ha, hb, hr⟩ := (validPercent_escape a b rest).1 hv
          have hrec := ih (pre ++ 37 :: a :: b :: rest) (pre ++ [37, a, b]) rest
            (pre.length + 2 + 1) (acc ++ [16 * hexValue a + hexValue b]) (by simp) (by simp)
            (by simp at hlen; omega) hr
          simp only [h1, h2, if_true, unescape_byte ha hb]
          rw [hrec, queryDecode_escape]
          simp
      · have hv2 := (validPercent_other hc _).1 hv
        simp only [hc, if_false]
        rw [queryDecode_other hc]
        by_cases hp : c = 43
        · subst hp
          have hrec := ih (pre ++ 43 :: rest) (pre ++ [43]) rest (pre.length + 1) (acc ++ [32])
            (by simp) (by simp) (by simp at hlen; omega) hv2
          simp only [if_true]
          rw [hrec]
          simp
        · have hrec := ih (pre ++ c :: rest) (pre ++ [c]) rest (pre.length + 1) (acc ++ [c])
            (by simp) (by simp) (by simp at hlen; omega) hv2
          simp only [hp, if_false]
          rw [hrec]
          simp

theorem queryDecode_plain : ∀ t : GoString, t.count 37 = 0 → 43 ∉ t → queryDecode t = t := by
  intro t
  induction t with
  | nil => intro _ _; simp [queryDecode]
  | cons c rest ih =>
    intro h1 h2
    have hc : c ≠ 37 := by
      intro h; subst h; simp at h1
    have hp : c ≠ 43 := by
      intro h; subst h; simp at h2
    rw [queryDecode_other hc, ih]
    · simp [hp]
    · have hc2 : ¬ (37 = c) := fun h => hc h.symm
      simpa [List.count_cons, hc] using h1
    · intro h; exact h2 (List.mem_cons_of_mem _ h)

theorem queryUnescape_valid {t : GoString} (hv : ValidPercent t) :
    queryUnescape t = (queryDecode t, none) := by
  unfold queryUnescape
  rw [unescapeScan_valid t.length t [] t 0 0 false (by simp) (by simp) (Nat.le_refl _) hv]
  simp only [Nat.zero_add, Bool.false_or]
  by_cases h : t.count 37 = 0 ∧ decide (43 ∈ t) = false
  · rw [if_pos h, queryDecode_plain t h.1 (by simpa using h.2)]
  · rw [if_neg h, unescapeBuild_valid t.length t [] t 0 [] (by simp) (by simp) (Nat.le_refl _) hv]
    simp

theorem queryUnescape_invalid {t : GoString} (hv : ¬ ValidPercent t) :
    ∃ e, queryUnescape t = ([], some e) := by
  obtain ⟨e, he⟩ := unescapeScan_invalid t.length t [] t 0 0 false (by simp) (by simp)
    (Nat.le_refl _) hv
  exact ⟨e, by unfold queryUnescape; rw [he]⟩

/-! ## `strings.Index` finds the first occurrence -/

theorem stringsIndexFrom_spec (substr : GoString) : ∀ (s : GoString) (i : Nat),
    (¬ substr <:+: s ∧ stringsIndexFrom substr s i = -1) ∨
    (∃ pre post, s = pre ++ substr ++ post ∧
      (∀ pre2 post2 : GoString, s = pre2 ++ substr ++ post2 → pre.length ≤ pre2.length) ∧
      stringsIndexFrom substr s i = ((i + pre.length : Nat) : Int)) := by
  intro s
  induction s with
  | nil =>
    intro i
    unfold stringsIndexFrom
    by_cases h : substr = []
    · right
      exact ⟨[], [], by simp [h], by intro _ _ _; simp, by simp [h]⟩
    · left
      exact ⟨by simpa using h, by simp [h]⟩
  | cons c cs ih =>
    intro i
    unfold stringsIndexFrom
    by_cases hp : substr.isPrefixOf (c :: cs) = true
    · right
      obtain ⟨post, hpost⟩ := List.isPrefixOf_iff_prefix.1 hp
      exact ⟨[], post, by simp [hpost], by intro _ _ _; simp, by simp [hp]⟩
    · have hnp : ¬ substr <+: c :: cs := fun h => hp (List.isPrefixOf_iff_prefix.2 h)
      simp only [hp, Bool.false_eq_true, if_false]
      rcases ih (i + 1) with ⟨hno, hidx⟩ | ⟨pre, post, hs, hfirst, hidx⟩
      · left
        refine ⟨?_, hidx⟩
        rw [List.infix_cons_iff]
        rintro (h | h)
        · exact hnp h
        · exact hno h
      · right
        refine ⟨c :: pre, post, by simp [hs], ?_, ?_⟩
        · intro pre2 post2 h2
          cases pre2 with
          | nil =>
            exfalso
            apply hnp
            exact ⟨post2, by simpa using h2.symm⟩
          | cons d p2 =>
            simp only [List.cons_append, List.cons.injEq] at h2
            have := hfirst p2 post2 (by simpa using h2.2)
            simpa using this
        · rw [hidx]; simp; omega

theorem stringsIndex_absent {s substr : GoString} (h : ¬ substr <:+: s) :
    stringsIndex s substr = -1 := by
  rcases stringsIndexFrom_spec substr s 0 with ⟨_, hidx⟩ | ⟨pre, post, hs, _, _⟩
  · exact hidx
  · exact absurd ⟨pre, post, hs.symm⟩ h

theorem stringsIndex_present {s substr : GoString} (h : substr <:+: s) :
    ∃ pre post, s = pre ++ substr ++ post ∧
      (∀ pre2 post2 : GoString, s = pre2 ++ substr ++ post2 → pre.length ≤ pre2.length) ∧
      stringsIndex s substr = (pre.length : Int) := by
  rcases stringsIndexFrom_spec substr s 0 with ⟨hno, _⟩ | ⟨pre, post, hs, hfirst, hidx⟩
  · exact absurd h hno
  · exact ⟨pre, post, hs, hfirst, by simpa [stringsIndex] using hidx⟩

theorem splitsAtFirstMarker_unique {s pre post pre2 post2 : GoString}
    (h1 : SplitsAtFirstMarker s pre post) (h2 : SplitsAtFirstMarker s pre2 post2) :
    pre = pre2 ∧ post = post2 := by
  have hlen : pre.length = pre2.length :=
    Nat.le_antisymm (h1.2 _ _ h2.1) (h2.2 _ _ h1.1)
  have heq : pre ++ (marker ++ post) = pre2 ++ (marker ++ post2) := by
    rw [← List.append_assoc, ← List.append_assoc, ← h1.1, ← h2.1]
  obtain ⟨hp, hr⟩ := List.append_inj heq hlen
  exact ⟨hp, List.append_cancel_left hr⟩

theorem stringsContains_iff (s substr : GoString) :
    stringsContains s substr = true ↔ substr <:+: s := by
  unfold stringsContains
  constructor
  · intro h
    by_contra hno
    rw [stringsIndex_absent hno] at h
    simp at h
  · intro h
    obtain ⟨pre, post, _, _, hidx⟩ := stringsIndex_present h
    rw [hidx]; simp

/-! ## `extractAndDecodeURL` -/

theorem extractAndDecodeURL_absent {s : GoString} (h : ¬ marker <:+: s) :
    extractAndDecodeURL s = ([], some (.errorf (goStr "substring not found in the URL"))) := by
  unfold extractAndDecodeURL
  simp [stringsIndex_absent h]

theorem extractAndDecodeURL_split {s pre post : GoString} (h : SplitsAtFirstMarker s pre post) :
    extractAndDecodeURL s =
      match queryUnescape post with
      | (_, some err) => ([], some err)
      | (decodedURL, none) => (decodedURL, none) := by
  obtain ⟨pre2, post2, hs, hfirst, hidx⟩ := stringsIndex_present (s := s) ⟨pre, post, h.1.symm⟩
  obtain ⟨hp, hq⟩ := splitsAtFirstMarker_unique h ⟨hs, hfirst⟩
  subst hp hq
  unfold extractAndDecodeURL
  have hne : (pre.length : Int) ≠ -1 := by omega
  have hdrop : s.drop ((pre.length : Int) + (marker.length : Int)).toNat = post := by
    have : ((pre.length : Int) + (marker.length : Int)).toNat = (pre ++ marker).length := by
      simp; omega
    rw [this, hs, List.drop_left]
  simp only [hidx, hne, ne_eq, not_false_eq_true, if_true, hdrop]

theorem exists_split_of_contains {s : GoString} (h : marker <:+: s) :
    ∃ pre post, SplitsAtFirstMarker s pre post := by
  obtain ⟨pre, post, hs, hfirst, _⟩ := stringsIndex_present h
  exact ⟨pre, post, hs, hfirst⟩

theorem splitsAtFirstMarker_of_index {s pre post : GoString}
    (hs : s = pre ++ marker ++ post) (hidx : stringsIndex s marker = (pre.length : Int)) :
    SplitsAtFirstMarker s pre post := by
  obtain ⟨pre2, post2, hs2, hfirst, hidx2⟩ := stringsIndex_present (s := s) ⟨pre, post, hs.symm⟩
  have hlen : pre.length = pre2.length := by
    rw [hidx] at hidx2; exact_mod_cast hidx2
  refine ⟨hs, fun p q h => ?_⟩
  rw [hlen]; exact hfirst p q h

theorem extractAndDecodeURL_valid {s pre post : GoString} (h : SplitsAtFirstMarker s pre post)
    (hv : ValidPercent post) : extractAndDecodeURL s = (queryDecode post, none) := by
  rw [extractAndDecodeURL_split h, queryUnescape_valid hv]

theorem extractAndDecodeURL_invalid {s pre post : GoString} (h : SplitsAtFirstMarker s pre post)
    (hv : ¬ ValidPercent post) : ∃ e, extractAndDecodeURL s = ([], some e) := by
  obtain ⟨e, he⟩ := queryUnescape_invalid hv
  exact ⟨e, by rw [extractAndDecodeURL_split h, he]⟩

theorem hasBadPercent_iff (t : GoString) : HasBadPercent t ↔ ¬ ValidPercent t := by
  unfold HasBadPercent ValidPercent
  constructor
  · rintro ⟨i, hi, h37, hbad⟩ h
    exact hbad (h i hi h37)
  · intro h
    by_contra hno
    apply h
    intro i hi h37
    by_contra hbad
    exact hno ⟨i, hi, h37, hbad⟩

theorem resolveDetailURL_absent {link : GoString} (h : ¬ marker <:+: link) :
    resolveDetailURL link = .ok link := by
  unfold resolveDetailURL
  have : stringsContains link marker = false := by
    cases hc : stringsContains link marker
    · rfl
    · exact absurd ((stringsContains_iff _ _).1 hc) h
  simp [this]

theorem resolveDetailURL_valid {link pre post : GoString} (h : SplitsAtFirstMarker link pre post)
    (hv : ValidPercent post) : resolveDetailURL link = .ok (queryDecode post) := by
  unfold resolveDetailURL
  have : stringsContains link marker = true :=
    (stringsContains_iff _ _).2 ⟨pre, post, h.1.symm⟩
  simp [this, extractAndDecodeURL_valid h hv]

/-! ## Redirect decoding -/

/-- C1 (as amended): for a detail link `L` that splits at its first `"r="`
into `pre` and `post`, with `post` validly percent-encoded,
`extractAndDecodeURL` returns without error the decoding of `post` in which
each `%XX` is replaced by the byte `XX`, each `+` by a space and every other
byte is kept; `scrapeStep1` resolves the link to that text. -/
theorem extractAndDecodeURL_decodes (L pre post : GoString)
    (hsplit : SplitsAtFirstMarker L pre post) (hvalid : ValidPercent post) :
    extractAndDecodeURL L = (queryDecode post, none) ∧
      resolveDetailURL L = .ok (queryDecode post) :=
  ⟨extractAndDecodeURL_valid hsplit hvalid, resolveDetailURL_valid hsplit hvalid⟩

/-- Witness of C1: the link `".../p/foo?r=https%3A%2F%2Fexample.com%2Fbar"`
decodes to `"https://example.com/bar"`. -/
theorem extractAndDecodeURL_decodes_witness :
    extractAndDecodeURL (goStr ".../p/foo?r=https%3A%2F%2Fexample.com%2Fbar") =
        (goStr "https://example.com/bar", none) ∧
      resolveDetailURL (goStr ".../p/foo?r=https%3A%2F%2Fexample.com%2Fbar") =
        .ok (goStr "https://example.com/bar") :=
  extractAndDecodeURL_decodes (goStr ".../p/foo?r=https%3A%2F%2Fexample.com%2Fbar")
    (goStr ".../p/foo?") (goStr "https%3A%2F%2Fexample.com%2Fbar")
    (splitsAtFirstMarker_of_index (by decide) (by decide)) (by decide)

/-- Counterexample to C1 as stated: the link `"p?r=a+b"` contains the
marker and `"a+b"` is validly percent-encoded, yet `extractAndDecodeURL`
returns `"a b"` and not the percent-decoding `"a+b"` that keeps every
character other than `%XX`. -/
theorem extractAndDecodeURL_plus_not_kept :
    ¬ (∀ L pre post : GoString, SplitsAtFirstMarker L pre post → ValidPercent post →
        extractAndDecodeURL L = (percentDecode post, none)) := by
  intro h
  have h1 := h (goStr "p?r=a+b") (goStr "p?") (goStr "a+b")
    (splitsAtFirstMarker_of_index (by decide) (by decide)) (by decide)
  have h2 : extractAndDecodeURL (goStr "p?r=a+b") = (goStr "a b", none) := by decide
  rw [h2] at h1
  revert h1
  decide

/-- C2: a detail link without `"r="` is resolved by `scrapeStep1` to
itself, resolving the result again changes nothing, and the record of the
card carries the link unchanged. -/
theorem resolveDetailURL_without_marker (L : GoString) (hno : ¬ marker <:+: L) :
    resolveDetailURL L = .ok L ∧
      (resolveDetailURL L).bind resolveDetailURL = .ok L ∧
      ∀ (products : List Product) (name price imageURL : GoString),
        scrapeCard products (.ok ⟨name, price, imageURL, L⟩) =
          .ok (products ++ [⟨name, price, imageURL, L, [], []⟩]) := by
  have h := resolveDetailURL_absent hno
  refine ⟨h, ?_, ?_⟩
  · rw [h]; exact h
  · intro products name price imageURL
    simp [scrapeCard, h]

/-- Witness of C2 at the link `"https://example.com/bar"`. -/
theorem resolveDetailURL_without_marker_witness :
    ¬ marker <:+: goStr "https://example.com/bar" ∧
      resolveDetailURL (goStr "https://example.com/bar") = .ok (goStr "https://example.com/bar") :=
  have hno : ¬ marker <:+: goStr "https://example.com/bar" := by decide
  ⟨hno, (resolveDetailURL_without_marker (goStr "https://example.com/bar") hno).1⟩

/-- C10: `extractAndDecodeURL` returns an error exactly when the input has
no `"r="` or the text after the first `"r="` contains a `%` that is not
followed by two hexadecimal digits; whenever it returns an error the
returned string is empty. -/
theorem extractAndDecodeURL_error_iff (s : GoString) :
    ((extractAndDecodeURL s).2 ≠ none ↔
      (¬ marker <:+: s ∨ ∃ pre post, SplitsAtFirstMarker s pre post ∧ HasBadPercent post)) ∧
    ((extractAndDecodeURL s).2 = none ∨ (extractAndDecodeURL s).1 = []) := by
  by_cases hc : marker <:+: s
  · obtain ⟨pre, post, hsp⟩ := exists_split_of_contains hc
    by_cases hv : ValidPercent post
    · rw [extractAndDecodeURL_valid hsp hv]
      refine ⟨⟨fun h => absurd rfl h, ?_⟩, Or.inl rfl⟩
      rintro (h | ⟨pre2, post2, hsp2, hbad⟩)
      · exact absurd hc h
      · obtain ⟨-, hq⟩ := splitsAtFirstMarker_unique hsp hsp2
        subst hq
        exact absurd hv ((hasBadPercent_iff _).1 hbad)
    · obtain ⟨e, he⟩ := extractAndDecodeURL_invalid hsp hv
      rw [he]
      exact ⟨⟨fun _ => Or.inr ⟨pre, post, hsp, (hasBadPercent_iff _).2 hv⟩, fun _ => by simp⟩,
        Or.inr rfl⟩
  · rw [extractAndDecodeURL_absent hc]
    exact ⟨⟨fun _ => Or.inl hc, fun _ => by simp⟩, Or.inr rfl⟩

/-! ## The Detail Fetcher `scrapeStep2` -/

/-- C4: on a record whose merchant and rating are empty, `scrapeStep2`
leaves in `merchant` the fetched merchant text exactly when the merchant
lookup succeeded (empty otherwise) and in `rating` the fetched rating text
exactly when the rating lookup succeeded, each whatever the other lookup
did; with a successful merchant lookup and a failed rating lookup the
rating is empty and the merchant is the fetched text. -/
theorem scrapeStep2_fields (product : Product) (merchantRun ratingRun : Lookup)
    (hm : product.merchant = []) (hr : product.rating = []) :
    (scrapeStep2 product merchantRun ratingRun).1.merchant = fetchedOrEmpty merchantRun ∧
    (scrapeStep2 product merchantRun ratingRun).1.rating = fetchedOrEmpty ratingRun ∧
    (∀ text err, merchantRun = .ok text → ratingRun = .error err →
      (scrapeStep2 product merchantRun ratingRun).1.rating = [] ∧
      (scrapeStep2 product merchantRun ratingRun).1.merchant = text) := by
  cases merchantRun <;> cases ratingRun <;>
    simp [scrapeStep2, fetchedOrEmpty, hm, hr]

/-- Witness of C4: the merchant lookup returns `"Shop"`, the rating lookup
fails. -/
theorem scrapeStep2_fields_witness :
    (scrapeStep2 ⟨goStr "Phone", goStr "Rp1", goStr "i", goStr "d", [], []⟩
        (.ok (goStr "Shop")) (.error (.external (goStr "timeout")))).1.merchant = goStr "Shop" ∧
    (scrapeStep2 ⟨goStr "Phone", goStr "Rp1", goStr "i", goStr "d", [], []⟩
        (.ok (goStr "Shop")) (.error (.external (goStr "timeout")))).1.rating = [] :=
  have h := scrapeStep2_fields ⟨goStr "Phone", goStr "Rp1", goStr "i", goStr "d", [], []⟩
    (.ok (goStr "Shop")) (.error (.external (goStr "timeout"))) rfl rfl
  ⟨h.1, h.2.1⟩

/-- C5: whatever the two lookups do, `scrapeStep2` returns no error. -/
theorem scrapeStep2_no_error (product : Product) (merchantRun ratingRun : Lookup) :
    (scrapeStep2 product merchantRun ratingRun).2 = none := by
  cases merchantRun <;> cases ratingRun <;> rfl

/-- C6: `scrapeStep2` leaves name, price, imageURL and detailProdukURL of
the record as they were. -/
theorem scrapeStep2_frame (product : Product) (merchantRun ratingRun : Lookup) :
    (scrapeStep2 product merchantRun ratingRun).1.name = product.name ∧
    (scrapeStep2 product merchantRun ratingRun).1.price = product.price ∧
    (scrapeStep2 product merchantRun ratingRun).1.imageURL = product.imageURL ∧
    (scrapeStep2 product merchantRun ratingRun).1.detailProdukURL = product.detailProdukURL := by
  cases merchantRun <;> cases ratingRun <;> simp [scrapeStep2]

/-! ## The Listing Collector `scrapeStep1` -/

theorem scrapeCard_ok_iff (acc : List Product) (card : CardOutcome) (ps : List Product) :
    scrapeCard acc card = .ok ps ↔ ∃ p, OutcomeRecord card p ∧ ps = acc ++ [p] := by
  unfold scrapeCard OutcomeRecord
  cases card with
  | error err => simp
  | ok f =>
    cases hres : resolveDetailURL f.detailProdukURL with
    | error fatal => simp [hres]
    | ok url =>
      simp only [hres, Except.ok.injEq]
      constructor
      · intro h
        exact ⟨_, ⟨f, url, rfl, hres, rfl⟩, h.symm⟩
      · rintro ⟨p, ⟨f2, url2, hf, hu, hp⟩, hps⟩
        cases hf
        rw [hres] at hu
        cases hu
        rw [hps, hp]

theorem scrapeCard_error_iff (acc : List Product) (card : CardOutcome) (fatal : Fatal) :
    scrapeCard acc card = .error fatal ↔ OutcomeFails card fatal := by
  unfold scrapeCard OutcomeFails
  cases card with
  | error err =>
    simp only [Except.error.injEq]
    constructor
    · intro h; exact Or.inl ⟨err, rfl, h.symm⟩
    · rintro (⟨e, he, hf⟩ | ⟨f, hf, -⟩)
      · cases he; exact hf.symm
      · cases hf
  | ok f =>
    cases hres : resolveDetailURL f.detailProdukURL with
    | error fatal2 =>
      simp only [hres, Except.error.injEq]
      constructor
      · intro h; exact Or.inr ⟨f, rfl, by rw [hres, h]⟩
      · rintro (⟨e, he, -⟩ | ⟨f2, hf, hr⟩)
        · cases he
        · cases hf
          rw [hres] at hr
          cases hr; rfl
    | ok url =>
      simp only [hres]
      constructor
      · intro h; cases h
      · rintro (⟨e, he, -⟩ | ⟨f2, hf, hr⟩)
        · cases he
        · cases hf
          rw [hres] at hr
          cases hr

theorem attributeValue_ok_iff (lookup : AttributeLookup) (text : GoString) :
    attributeValue lookup [] = .ok text ↔ attributeText lookup = some text := by
  cases lookup <;> simp [attributeValue, attributeText]

theorem attributeValue_error_iff (lookup : AttributeLookup) (err : GoError) :
    attributeValue lookup [] = .error err ↔ lookup = .noNode err := by
  cases lookup <;> simp [attributeValue]

theorem runCard_ok_iff (node : CardNode) (f : CardFields) :
    runCard node = .ok f ↔
      node.name = .ok f.name ∧ node.price = .ok f.price ∧
      attributeText node.image = some f.imageURL ∧
      attributeText node.link = some f.detailProdukURL := by
  obtain ⟨name, price, image, link⟩ := node
  obtain ⟨n, p, i, l⟩ := f
  cases name <;> cases price <;> cases image <;> cases link <;>
    simp [runCard, attributeValue, attributeText]

theorem runCard_error_iff (node : CardNode) (err : GoError) :
    runCard node = .error err ↔ FirstError node err := by
  obtain ⟨name, price, image, link⟩ := node
  cases name <;> cases price <;> cases image <;> cases link <;>
    simp [runCard, attributeValue, attributeText, FirstError]

theorem isRecordOf_iff (node : CardNode) (p : Product) :
    IsRecordOf node p ↔ OutcomeRecord (runCard node) p := by
  unfold IsRecordOf OutcomeRecord
  constructor
  · rintro ⟨name, price, imageURL, link, url, h1, h2, h3, h4, h5, h6⟩
    exact ⟨⟨name, price, imageURL, link⟩, url,
      (runCard_ok_iff node _).2 ⟨h1, h2, h3, h4⟩, h5, h6⟩
  · rintro ⟨f, url, hf, hu, hp⟩
    obtain ⟨h1, h2, h3, h4⟩ := (runCard_ok_iff node f).1 hf
    exact ⟨_, _, _, _, url, h1, h2, h3, h4, hu, hp⟩

theorem failsWith_iff (node : CardNode) (fatal : Fatal) :
    FailsWith node fatal ↔ OutcomeFails (runCard node) fatal := by
  unfold FailsWith OutcomeFails
  constructor
  · rintro (⟨err, he, hf⟩ | ⟨name, price, imageURL, link, h1, h2, h3, h4, h5⟩)
    · exact Or.inl ⟨err, (runCard_error_iff node err).2 he, hf⟩
    · exact Or.inr ⟨⟨name, price, imageURL, link⟩,
        (runCard_ok_iff node _).2 ⟨h1, h2, h3, h4⟩, h5⟩
  · rintro (⟨err, he, hf⟩ | ⟨f, hf, hr⟩)
    · exact Or.inl ⟨err, (runCard_error_iff node err).1 he, hf⟩
    · obtain ⟨h1, h2, h3, h4⟩ := (runCard_ok_iff node f).1 hf
      exact Or.inr ⟨_, _, _, _, h1, h2, h3, h4, hr⟩

theorem scrapeNode_ok_iff (acc : List Product) (node : CardNode) (ps : List Product) :
    scrapeCard acc (runCard node) = .ok ps ↔ ∃ p, IsRecordOf node p ∧ ps = acc ++ [p] := by
  rw [scrapeCard_ok_iff]
  constructor
  · rintro ⟨p, hp, hps⟩; exact ⟨p, (isRecordOf_iff node p).2 hp, hps⟩
  · rintro ⟨p, hp, hps⟩; exact ⟨p, (isRecordOf_iff node p).1 hp, hps⟩

theorem scrapeNode_error_iff (acc : List Product) (node : CardNode) (fatal : Fatal) :
    scrapeCard acc (runCard node) = .error fatal ↔ FailsWith node fatal := by
  rw [scrapeCard_error_iff, failsWith_iff]

theorem record_or_failure (node : CardNode) :
    (∃ p, IsRecordOf node p) ∨ (∃ fatal, FailsWith node fatal) := by
  cases h : scrapeCard [] (runCard node) with
  | error fatal => exact Or.inr ⟨fatal, (scrapeNode_error_iff [] node fatal).1 h⟩
  | ok ps =>
    obtain ⟨p, hp, -⟩ := (scrapeNode_ok_iff [] node ps).1 h
    exact Or.inl ⟨p, hp⟩

theorem scrapeCards_ok_iff : ∀ (cards : List CardNode) (acc ps : List Product),
    scrapeCards cards acc = .ok ps ↔
      ∃ new, ps = acc ++ new ∧ List.Forall₂ IsRecordOf cards new := by
  intro cards
  induction cards with
  | nil =>
    intro acc ps
    simp only [scrapeCards, Except.ok.injEq, List.forall₂_nil_left_iff]
    constructor
    · intro h; exact ⟨[], by simp [h], rfl⟩
    · rintro ⟨new, h, hn⟩; subst hn; simp [h]
  | cons card rest ih =>
    intro acc ps
    unfold scrapeCards
    cases hc : scrapeCard acc (runCard card) with
    | error fatal =>
      simp only
      constructor
      · intro h; cases h
      · rintro ⟨new, -, hf⟩
        cases hf with
        | cons hp _ =>
          have := (scrapeNode_ok_iff acc card _).2 ⟨_, hp, rfl⟩
          rw [hc] at this
          cases this
    | ok acc2 =>
      obtain ⟨p, hp, hacc2⟩ := (scrapeNode_ok_iff acc card acc2).1 hc
      simp only
      rw [ih]
      constructor
      · rintro ⟨new, hps, hf⟩
        exact ⟨p :: new, by rw [hps, hacc2]; simp, List.Forall₂.cons hp hf⟩
      · rintro ⟨new, hps, hf⟩
        cases hf with
        | @cons _ q _ new2 hq hf2 =>
          have h2 := (scrapeNode_ok_iff acc card _).2 ⟨q, hq, rfl⟩
          rw [hc] at h2
          cases h2
          exact ⟨new2, by rw [hps]; simp, hf2⟩

theorem scrapeCards_abort : ∀ (pre : List CardNode) (card : CardNode)
    (post : List CardNode) (acc : List Product) (fatal : Fatal),
    (∀ x ∈ pre, ∃ p, IsRecordOf x p) → FailsWith card fatal →
    scrapeCards (pre ++ card :: post) acc = .error fatal := by
  intro pre
  induction pre with
  | nil =>
    intro card post acc fatal _ hfail
    simp only [List.nil_append, scrapeCards]
    rw [(scrapeNode_error_iff acc card fatal).2 hfail]
  | cons x pre ih =>
    intro card post acc fatal hpre hfail
    obtain ⟨p, hp⟩ := hpre x (List.mem_cons_self _ _)
    simp only [List.cons_append, scrapeCards]
    rw [(scrapeNode_ok_iff acc x _).2 ⟨p, hp, rfl⟩]
    exact ih card post _ fatal (fun y hy => hpre y (List.mem_cons_of_mem _ hy)) hfail

/-- C8 (as amended): `scrapeStep1` yields a result exactly when every card
yields its record, that is when its name and price texts are extracted,
its image and link elements are found (an element without the `src` or
`href` attribute is no failure and gives the empty string) and the redirect
decoding of the link succeeds; the result then has one record per card in
DOM order, the i-th carrying the i-th card's name, price, imageURL and
resolved detail link; every card yields a record or fails, and at the first
card that fails the run ends with that card's fatal error, whatever the
later cards are. -/
theorem scrapeStep1_all_or_abort (cards : List CardNode) :
    (∀ ps, scrapeStep1 (.ok cards) = .ok ps ↔ List.Forall₂ IsRecordOf cards ps) ∧
    (∀ ps, scrapeStep1 (.ok cards) = .ok ps → ps.length = cards.length) ∧
    (∀ card ∈ cards, (∃ p, IsRecordOf card p) ∨ (∃ fatal, FailsWith card fatal)) ∧
    (∀ pre card post fatal, cards = pre ++ card :: post →
      (∀ x ∈ pre, ∃ p, IsRecordOf x p) → FailsWith card fatal →
      scrapeStep1 (.ok cards) = .error fatal) := by
  have h1 : ∀ ps, scrapeStep1 (.ok cards) = .ok ps ↔ List.Forall₂ IsRecordOf cards ps := by
    intro ps
    simp only [scrapeStep1]
    rw [scrapeCards_ok_iff]
    simp
  refine ⟨h1, fun ps h => ((h1 ps).1 h).length_eq.symm,
    fun card _ => record_or_failure card, ?_⟩
  intro pre card post fatal hc hpre hfail
  subst hc
  exact scrapeCards_abort pre card post [] fatal hpre hfail

/-- Witness of C8: two cards that succeed (the second with a redirect
link) give two records in order; a third card whose price is not found
aborts the run, whatever follows it. -/
theorem scrapeStep1_all_or_abort_witness :
    scrapeStep1 (.ok twoCards) =
      .ok [⟨goStr "A", goStr "Rp1", goStr "a.png", goStr "https://x/a", [], []⟩,
           ⟨goStr "B", goStr "Rp2", goStr "b.png", goStr "https://x/b", [], []⟩] ∧
    scrapeStep1 (.ok (twoCards ++ cardWithoutPrice :: twoCards)) =
      .error ⟨goStr "Error:", .external (goStr "not found")⟩ :=
  ⟨((scrapeStep1_all_or_abort twoCards).1 _).2
      (List.Forall₂.cons
        ⟨_, _, _, _, goStr "https://x/a", rfl, rfl, rfl, rfl, by rfl, rfl⟩
        (List.Forall₂.cons
          ⟨_, _, _, _, goStr "https://x/b", rfl, rfl, rfl, rfl, by rfl, rfl⟩
          List.Forall₂.nil)),
   (scrapeStep1_all_or_abort (twoCards ++ cardWithoutPrice :: twoCards)).2.2.2
      twoCards cardWithoutPrice twoCards
      ⟨goStr "Error:", .external (goStr "not found")⟩ rfl
      (by
        intro x hx
        simp only [twoCards, List.mem_cons, List.mem_singleton, List.not_mem_nil,
          or_false] at hx
        rcases hx with hx | hx
        · subst hx
          exact ⟨_, _, _, _, _, goStr "https://x/a", rfl, rfl, rfl, rfl, by rfl, rfl⟩
        · subst hx
          exact ⟨_, _, _, _, _, goStr "https://x/b", rfl, rfl, rfl, rfl, by rfl, rfl⟩)
      (Or.inl ⟨_, Or.inr (Or.inl ⟨goStr "A", rfl, rfl⟩), rfl⟩)⟩

/-- Counterexample to C8 as stated: a card whose link element has no
`href` attribute is not extracted in the sense of the specification
(attribute missing), yet `scrapeStep1` yields a result, with a record whose
detail link is empty. -/
theorem scrapeStep1_missing_href :
    ¬ ExtractionSucceeds cardWithoutHref ∧
      scrapeStep1 (.ok [cardWithoutHref]) =
        .ok [⟨goStr "A", goStr "Rp1", goStr "a.png", [], [], []⟩] := by
  refine ⟨?_, by rfl⟩
  rintro ⟨-, -, -, href, h⟩
  cases h

/-! ## The Concurrency Limiter `concurrentScrapeStep2` -/

theorem scrapeStep2_snd (product : Product) (merchantRun ratingRun : Lookup) :
    (scrapeStep2 product merchantRun ratingRun).2 = none := by
  cases merchantRun <;> cases ratingRun <;> rfl

theorem scrapeStep2_eq (product : Product) (merchantRun ratingRun : Lookup) :
    scrapeStep2 product merchantRun ratingRun =
      ((scrapeStep2 product merchantRun ratingRun).1, none) := by
  cases merchantRun <;> cases ratingRun <;> rfl

theorem step_preserves {limit : Nat} {s s2 : LimiterState} {e : Event}
    (h : step limit s e = some s2) (hinv : SlotInvariant limit s) :
    SlotInvariant limit s2 ∧ s2.products.length = s.products.length := by
  obtain ⟨h1, h2⟩ := hinv
  cases e with
  | main =>
    simp only [step] at h
    cases hpc : s.mainPc with
    | acquire i =>
      rw [hpc] at h h1
      simp only [slotsHeld] at h1
      simp only at h
      split at h
      · split at h
        · cases h
          exact ⟨⟨by simp only [slotsHeld]; omega, by simp only; omega⟩, rfl⟩
        · cases h
      · cases h
        exact ⟨⟨by simp only [slotsHeld]; omega, h2⟩, rfl⟩
    | launch i =>
      rw [hpc] at h h1
      simp only [slotsHeld] at h1
      simp only [Option.some.injEq] at h
      subst h
      exact ⟨⟨by simp only [slotsHeld, List.length_cons]; omega, h2⟩, rfl⟩
    | drain k =>
      rw [hpc] at h h1
      simp only [slotsHeld] at h1
      simp only at h
      split at h
      · split at h
        · cases h
          exact ⟨⟨by simp only [slotsHeld]; omega, by simp only; omega⟩, rfl⟩
        · cases h
      · cases h
        exact ⟨⟨by simp only [slotsHeld]; omega, h2⟩, rfl⟩
    | returned =>
      rw [hpc] at h
      cases h
  | scrape i merchantRun ratingRun =>
    simp only [step] at h
    split at h
    · cases hp : s.products[i]? with
      | none => rw [hp] at h; cases h
      | some product =>
        simp only [hp] at h
        rcases hres : scrapeStep2 product merchantRun ratingRun with ⟨p2, err⟩
        have hnone := scrapeStep2_snd product merchantRun ratingRun
        rw [hres] at hnone h
        simp only at hnone
        subst hnone
        simp only [Option.some.injEq] at h
        subst h
        exact ⟨⟨by simpa [List.length_replace] using h1, h2⟩, by simp⟩
    · cases h
  | release i =>
    simp only [step] at h
    split at h
    · rename_i hc
      cases h
      have hlen := List.length_erase_of_mem hc.1
      have hpos : 0 < s.tasks.length := List.length_pos_of_mem hc.1
      exact ⟨⟨by simp only [hlen]; omega, by simp only; omega⟩, rfl⟩
    · cases h

theorem exec_preserves {limit : Nat} : ∀ (schedule : List Event) (s s2 : LimiterState),
    exec limit s schedule = some s2 → SlotInvariant limit s →
    SlotInvariant limit s2 ∧ s2.products.length = s.products.length := by
  intro schedule
  induction schedule with
  | nil =>
    intro s s2 h hinv
    simp only [exec, Option.some.injEq] at h
    subst h
    exact ⟨hinv, rfl⟩
  | cons e es ih =>
    intro s s2 h hinv
    simp only [exec] at h
    cases hs : step limit s e with
    | none => rw [hs] at h; cases h
    | some s1 =>
      rw [hs] at h
      obtain ⟨hinv1, hlen1⟩ := step_preserves hs hinv
      obtain ⟨hinv2, hlen2⟩ := ih s1 s2 h hinv1
      exact ⟨hinv2, hlen2.trans hlen1⟩

theorem slotInvariant_init (limit : Nat) (products : List Product) :
    SlotInvariant limit (initState products) := by
  simp [SlotInvariant, initState, slotsHeld]

theorem exec_append (limit : Nat) : ∀ (a b : List Event) (s : LimiterState),
    exec limit s (a ++ b) = (exec limit s a).bind (fun s2 => exec limit s2 b) := by
  intro a
  induction a with
  | nil => intro b s; simp [exec]
  | cons e es ih =>
    intro b s
    simp only [List.cons_append, exec]
    cases step limit s e with
    | none => simp
    | some s1 => exact ih b s1

theorem exec_sequential (limit : Nat) (hlimit : 0 < limit) (outcomes : Nat → Lookup × Lookup) :
    ∀ (n i : Nat) (ps : List Product), i + n = ps.length →
    ∃ ps2 : List Product, ps2.length = ps.length ∧
      exec limit ⟨ps, 0, .acquire i, []⟩ (sequentialSchedule outcomes i n) =
        some ⟨ps2, 0, .acquire (i + n), []⟩ := by
  intro n
  induction n with
  | zero =>
    intro i ps _
    exact ⟨ps, rfl, by simp [sequentialSchedule, exec]⟩
  | succ n ih =>
    intro i ps hlen
    have hi : i < ps.length := by omega
    obtain ⟨ps2, hlen2, hexec⟩ := ih (i + 1)
      (ps.set i (scrapeStep2 ps[i] (outcomes i).1 (outcomes i).2).1)
      (by simp; omega)
    refine ⟨ps2, by simpa using hlen2, ?_⟩
    have hget : ps[i]? = some ps[i] := List.getElem?_eq_getElem hi
    simp only [sequentialSchedule, exec, step, hi, hlimit,
      if_true, List.mem_singleton, hget]
    rw [scrapeStep2_eq]
    simp only [List.replace_cons, beq_self_eq_true, if_true, List.mem_singleton, Nat.lt_add_one,
      and_self, Nat.add_sub_cancel, List.erase_cons_head]
    have e : i + 1 + n = i + (n + 1) := by omega
    rw [hexec, e]

theorem exec_drain (ps : List Product) :
    exec concurrentLimit ⟨ps, 0, .acquire ps.length, []⟩
        (List.replicate (concurrentLimit + 2) .main) =
      some ⟨ps, concurrentLimit, .returned, []⟩ := by
  simp [concurrentLimit, List.replicate, exec, step]

theorem concurrentScrapeStep2_complete (products : List Product)
    (outcomes : Nat → Lookup × Lookup) :
    ∃ result, concurrentScrapeStep2 products (completeSchedule outcomes products.length) =
      some result ∧ result.length = products.length := by
  obtain ⟨ps2, hlen2, hexec⟩ := exec_sequential concurrentLimit (by decide) outcomes
    products.length 0 products (by simp)
  refine ⟨ps2, ?_, hlen2⟩
  unfold concurrentScrapeStep2 completeSchedule initState
  rw [exec_append, hexec]
  simp only [Option.some_bind, Nat.zero_add]
  rw [← hlen2, exec_drain]
  simp

/-- C3: at every point of every execution of `concurrentScrapeStep2` the
slice has the length it had on entry, so the collection the caller sees
after phase 2 is as long as after phase 1; and for every outcome of the
lookups the function does return (under the schedule that handles the
records one after the other). -/
theorem concurrentScrapeStep2_length (products : List Product) :
    (∀ (limit : Nat) (schedule : List Event) (s : LimiterState),
      exec limit (initState products) schedule = some s →
      s.products.length = products.length) ∧
    (∀ (schedule : List Event) (result : List Product),
      concurrentScrapeStep2 products schedule = some result →
      result.length = products.length) ∧
    (∀ outcomes : Nat → Lookup × Lookup, ∃ result,
      concurrentScrapeStep2 products (completeSchedule outcomes products.length) = some result ∧
      result.length = products.length) := by
  refine ⟨?_, ?_, concurrentScrapeStep2_complete products⟩
  · intro limit schedule s h
    exact (exec_preserves schedule _ s h (slotInvariant_init limit products)).2
  · intro schedule result h
    unfold concurrentScrapeStep2 at h
    cases hs : exec concurrentLimit (initState products) schedule with
    | none => rw [hs] at h; cases h
    | some s =>
      rw [hs] at h
      simp only at h
      split at h
      · cases h
        exact (exec_preserves schedule _ s hs (slotInvariant_init _ products)).2
      · cases h

/-- C9: in every state that `concurrentScrapeStep2` reaches with a channel
of capacity `limit` (10 in the source), at most `limit` goroutines are
executing `scrapeStep2`: every live goroutine occupies a place of the
channel, which holds at most `limit` elements. -/
theorem concurrentScrapeStep2_bounded (limit : Nat) (products : List Product)
    (schedule : List Event) (s : LimiterState)
    (h : exec limit (initState products) schedule = some s) :
    executing s ≤ limit ∧ s.tasks.length ≤ s.semaphore ∧ s.semaphore ≤ limit := by
  obtain ⟨⟨h1, h2⟩, _⟩ := exec_preserves schedule _ s h (slotInvariant_init limit products)
  have h3 : executing s ≤ s.tasks.length := List.countP_le_length _
  exact ⟨by omega, by omega, h2⟩

set_option maxRecDepth 100000

/-- Witness of C3: one record, merchant found and rating missing; the
function returns one record. -/
theorem concurrentScrapeStep2_length_witness :
    concurrentScrapeStep2 oneRecord oneRecordSchedule =
        some [⟨goStr "A", goStr "Rp1", goStr "a.png", goStr "https://x/a", goStr "Shop", []⟩] ∧
      [(⟨goStr "A", goStr "Rp1", goStr "a.png", goStr "https://x/a", goStr "Shop", []⟩ :
          Product)].length = oneRecord.length :=
  have h : concurrentScrapeStep2 oneRecord oneRecordSchedule =
      some [⟨goStr "A", goStr "Rp1", goStr "a.png", goStr "https://x/a", goStr "Shop", []⟩] := by
    decide
  ⟨h, (concurrentScrapeStep2_length oneRecord).2.1 oneRecordSchedule _ h⟩

/-- Witness of C9: two slots and five records; after two goroutines are
started both execute `scrapeStep2`, and the caller cannot acquire a third
slot. -/
theorem concurrentScrapeStep2_bounded_witness :
    exec 2 (initState fiveRecords) [.main, .main, .main, .main] = some twoRunning ∧
      exec 2 (initState fiveRecords) [.main, .main, .main, .main, .main] = none ∧
      executing twoRunning = 2 ∧
      (executing twoRunning ≤ 2 ∧ twoRunning.tasks.length ≤ twoRunning.semaphore ∧
        twoRunning.semaphore ≤ 2) :=
  have h : exec 2 (initState fiveRecords) [.main, .main, .main, .main] = some twoRunning := by
    decide
  ⟨h, by decide, by decide,
    concurrentScrapeStep2_bounded 2 fiveRecords [.main, .main, .main, .main] twoRunning h⟩

/-! ## The Serializer `writeToCSV` -/

theorem writeRows_eq (uniSpace : GoString → Bool) : ∀ (products : List Product) (out : GoString),
    writeRows uniSpace products out =
      out ++ products.flatMap (fun p => csvWrite uniSpace (productRow p)) := by
  intro products
  induction products with
  | nil => intro out; simp [writeRows]
  | cons p rest ih => intro out; simp [writeRows, ih]

theorem count_quoteField : ∀ field : GoString, (quoteField field).count 10 = field.count 10 := by
  intro field
  induction field with
  | nil => rfl
  | cons c rest ih =>
    unfold quoteField
    by_cases hc : c = 34
    · subst hc
      simp [List.count_cons, ih]
    · simp [hc, List.count_cons, ih]

theorem count_csvFields (uniSpace : GoString → Bool) : ∀ (record : List GoString) (n : Nat),
    (∀ f ∈ record, 10 ∉ f) → (csvFields uniSpace record n).count 10 = 0 := by
  intro record
  induction record with
  | nil => intro n _; rfl
  | cons field rest ih =>
    intro n h
    have hf : field.count 10 = 0 := List.count_eq_zero.2 (h field (List.mem_cons_self _ _))
    have hrest := ih (n + 1) (fun f hfm => h f (List.mem_cons_of_mem _ hfm))
    unfold csvFields
    simp only [List.count_append, hrest, Nat.add_zero]
    have h1 : (if n > 0 then [44] else ([] : GoString)).count 10 = 0 := by
      split <;> simp
    have h2 : (if fieldNeedsQuotes uniSpace field = true
        then [34] ++ quoteField field ++ [34] else field).count 10 = 0 := by
      split
      · simp [List.count_append, count_quoteField, hf]
      · exact hf
    rw [h1, h2]

theorem lineCount_csvWrite (uniSpace : GoString → Bool) (record : List GoString)
    (h : ∀ f ∈ record, 10 ∉ f) : lineCount (csvWrite uniSpace record) = 1 := by
  unfold lineCount csvWrite
  rw [List.count_append, count_csvFields uniSpace record 0 h]
  simp

theorem lineCount_rows (uniSpace : GoString → Bool) : ∀ products : List Product,
    (∀ p ∈ products, ∀ f ∈ productRow p, 10 ∉ f) →
    lineCount (products.flatMap (fun p => csvWrite uniSpace (productRow p))) =
      products.length := by
  intro products
  induction products with
  | nil => intro _; rfl
  | cons p rest ih =>
    intro h
    have h1 := lineCount_csvWrite uniSpace (productRow p) (h p (List.mem_cons_self _ _))
    have h2 := ih (fun q hq => h q (List.mem_cons_of_mem _ hq))
    unfold lineCount at h1 h2 ⊢
    simp only [List.flatMap_cons, List.count_append, h1, h2, List.length_cons]
    omega

theorem csvWrite_header (uniSpace : GoString → Bool) :
    csvWrite uniSpace header =
      goStr "Name,Price,ImageURL,DetailProdukURL,Merchant,Rating\n" := by
  rfl

/-- C7 (as amended): for every list of `n` records `writeToCSV` writes the
`n+1` records of the list `header :: rows`, in this order: first the header
row `Name,Price,ImageURL,DetailProdukURL,Merchant,Rating`, then for each
record in collection order its six-column row; a row whose fields need no
quotes is its six fields separated by commas, an absent merchant or rating
being the empty string; and when no field of a record contains a line feed,
the output has exactly `n+1` lines. -/
theorem writeToCSV_rows (uniSpace : GoString → Bool) (products : List Product) :
    writeToCSV uniSpace products =
        (header :: products.map productRow).flatMap (csvWrite uniSpace) ∧
      (header :: products.map productRow).length = products.length + 1 ∧
      csvWrite uniSpace header =
        goStr "Name,Price,ImageURL,DetailProdukURL,Merchant,Rating\n" ∧
      (∀ p ∈ products, productRow p =
        [p.name, p.price, p.imageURL, p.detailProdukURL, p.merchant, p.rating] ∧
        ((∀ f ∈ productRow p, fieldNeedsQuotes uniSpace f = false) →
          csvWrite uniSpace (productRow p) =
            p.name ++ [44] ++ p.price ++ [44] ++ p.imageURL ++ [44] ++ p.detailProdukURL ++
              [44] ++ p.merchant ++ [44] ++ p.rating ++ [10])) ∧
      ((∀ p ∈ products, ∀ f ∈ productRow p, 10 ∉ f) →
        lineCount (writeToCSV uniSpace products) = products.length + 1) := by
  have hw : writeToCSV uniSpace products =
      (header :: products.map productRow).flatMap (csvWrite uniSpace) := by
    unfold writeToCSV
    rw [writeRows_eq]
    simp [List.flatMap_cons, List.flatMap_map]
  refine ⟨hw, by simp, csvWrite_header uniSpace, ?_, ?_⟩
  · intro p _
    refine ⟨rfl, fun hq => ?_⟩
    simp only [productRow, List.mem_cons, List.mem_singleton, List.not_mem_nil, or_false,
      forall_eq_or_imp, forall_eq] at hq
    obtain ⟨q1, q2, q3, q4, q5, q6⟩ := hq
    simp [csvWrite, csvFields, productRow, q1, q2, q3, q4, q5, q6]
  · intro hlf
    unfold writeToCSV
    rw [writeRows_eq]
    have h1 : lineCount (csvWrite uniSpace header) = 1 := by
      rw [csvWrite_header]; decide
    have h2 := lineCount_rows uniSpace products hlf
    unfold lineCount at h1 h2 ⊢
    rw [List.count_append, h1, h2]
    omega

/-- Witness of C7: three records, one full, one without merchant, one
without merchant and rating, give four lines with empty cells. -/
theorem writeToCSV_rows_witness :
    (∀ p ∈ threeRecords, ∀ f ∈ productRow p, 10 ∉ f) ∧
      writeToCSV (fun _ => false) threeRecords =
        goStr ("Name,Price,ImageURL,DetailProdukURL,Merchant,Rating\n" ++
          "Phone A,Rp1.000,a.png,https://x/a,Shop,4.9\n" ++
          "Phone B,Rp2.000,b.png,https://x/b,,4.8\n" ++
          "Phone C,Rp3.000,c.png,https://x/c,,\n") ∧
      lineCount (writeToCSV (fun _ => false) threeRecords) = 3 + 1 :=
  have hlf : ∀ p ∈ threeRecords, ∀ f ∈ productRow p, 10 ∉ f := by decide
  ⟨hlf, by decide, (writeToCSV_rows (fun _ => false) threeRecords).2.2.2.2 hlf⟩

/-- Counterexample to C7 as stated: three records (one full, one without
merchant, one without merchant and rating) whose first name holds a line
feed are written as five lines, not four. -/
theorem writeToCSV_line_feed_in_field :
    threeRecordsLineFeed.length = 3 ∧
      writeToCSV (fun _ => false) threeRecordsLineFeed =
        goStr ("Name,Price,ImageURL,DetailProdukURL,Merchant,Rating\n" ++
          "\"Phone\nA\",Rp1.000,a.png,https://x/a,Shop,4.9\n" ++
          "Phone B,Rp2.000,b.png,https://x/b,,4.8\n" ++
          "Phone C,Rp3.000,c.png,https://x/c,,\n") ∧
      lineCount (writeToCSV (fun _ => false) threeRecordsLineFeed) = 5 ∧
      lineCount (writeToCSV (fun _ => false) threeRecordsLineFeed) ≠ 4 := by
  decide

end ScrapeTokped
